import Mathlib

/-!
Verification development for the `file_tags` repository (simple file tagging).

The Python sources (`file_tags/tags.py`, `file_tags/util.py`) are shallowly
embedded below.  Python strings are modelled as `List Char`; the character
classification and case-mapping functions (`str.lower`, `str.isalnum`,
`str.isspace`) are Unicode-aware in Python and are modelled exactly on ASCII
plus the representative Latin-1 letter pair `É`/`é`, which suffices to witness
the Unicode-dependent behavior of tag-name normalization; theorems quantifying
over arbitrary strings are restricted to the range where the model is exact.
Fallible operations return `Except`; the filesystem touched by `os.rename` is
modelled as the list of existing paths.
-/

/-- Decidable equality for `Except`, needed to state concrete evaluations of
fallible operations. -/
instance {ε α : Type} [DecidableEq ε] [DecidableEq α] : DecidableEq (Except ε α) := fun a b =>
  match a, b with
  | .ok x, .ok y =>
    if h : x = y then .isTrue (by rw [h]) else .isFalse (by intro hc; cases hc; exact h rfl)
  | .error x, .error y =>
    if h : x = y then .isTrue (by rw [h]) else .isFalse (by intro hc; cases hc; exact h rfl)
  | .ok _, .error _ => .isFalse (by intro hc; cases hc)
  | .error _, .ok _ => .isFalse (by intro hc; cases hc)

/-- ASCII uppercase letter test (`A`-`Z`, code points 65-90). -/
def isUpperAZ (c : Char) : Bool := 65 ≤ c.toNat && c.toNat ≤ 90

/-- ASCII lowercase letter test (`a`-`z`, code points 97-122). -/
def isLowerAZ (c : Char) : Bool := 97 ≤ c.toNat && c.toNat ≤ 122

/-- ASCII digit test (`0`-`9`, code points 48-57). -/
def isDigit09 (c : Char) : Bool := 48 ≤ c.toNat && c.toNat ≤ 57

/-- Model of Python's `str.isalnum` per character.  Python's test is
Unicode-aware; the model is exact on ASCII and on the representative Latin-1
letters `É` (code point 201) and `é` (code point 233), which witness the
Unicode behavior where it matters (the tag-name alphabet property).  Other
non-ASCII characters are outside the model's scope and are treated as
non-alphanumeric, so theorems about non-ASCII inputs are only stated where the
model is exact. -/
def pyIsAlnum (c : Char) : Bool :=
  isUpperAZ c || isLowerAZ c || isDigit09 c || c.toNat = 201 || c.toNat = 233

/-- Model of Python's `str.isspace` per character, at ASCII fidelity:
space, tab, newline, carriage return, vertical tab, form feed. -/
def pyIsSpace (c : Char) : Bool :=
  c.toNat = 32 || c.toNat = 9 || c.toNat = 10 || c.toNat = 13 || c.toNat = 11 || c.toNat = 12

/-- Model of Python's `str.lower` per character: shift `A`-`Z` down by 32 code
points, map the modelled Latin-1 uppercase `É` to `é` (as Python does), and
leave everything else unchanged. -/
def pyToLower (c : Char) : Char :=
  if isUpperAZ c then Char.ofNat (c.toNat + 32)
  else if c.toNat = 201 then 'é'
  else c

/-- Model of Python's `str.lower` on a whole string. -/
def pyLowerL (l : List Char) : List Char := l.map pyToLower

/-- Model of Python's `str.strip()`: drop leading and trailing whitespace. -/
def pyStripL (l : List Char) : List Char :=
  ((l.dropWhile pyIsSpace).reverse.dropWhile pyIsSpace).reverse

/-- Embedding of `util.trim_repeating_whitespace` (util.py:122-137): a fold over
the characters that skips a character when it is whitespace and equal to the
previously kept character.  `prev` models the `previous_text_char` variable
(`none` models its initial empty-string value). -/
def trimWsGo (prev : Option Char) : List Char → List Char
  | [] => []
  | c :: rest =>
    if pyIsSpace c && prev == some c then trimWsGo prev rest
    else c :: trimWsGo (some c) rest

/-- Embedding of `util.trim_repeating_whitespace` (util.py:122-137). -/
def trim_repeating_whitespace (l : List Char) : List Char := trimWsGo none l

/-- Model of `posixpath.basename`: the part of the path after the last slash. -/
def posixBasename (p : List Char) : List Char :=
  (p.reverse.takeWhile (fun c => c ≠ '/')).reverse

/-- Model of `posixpath.dirname`: everything up to the last slash, with
trailing slashes stripped unless the result is all slashes. -/
def posixDirname (p : List Char) : List Char :=
  let head := (p.reverse.dropWhile (fun c => c ≠ '/')).reverse
  if head.isEmpty then []
  else if head.all (fun c => c = '/') then head
  else (head.reverse.dropWhile (fun c => c = '/')).reverse

/-- Model of two-argument `posixpath.join`: an absolute second component wins;
otherwise the components are glued with a slash unless one is already there. -/
def posixJoin (a b : List Char) : List Char :=
  match b with
  | '/' :: _ => b
  | _ =>
    if a.isEmpty || a.getLast? == some '/' then a ++ b
    else a ++ '/' :: b

/-- Model of `posixpath.splitext`: split off the extension at the last dot of
the last path segment, provided some earlier character of that segment is not a
dot (so names made of leading dots have no extension). -/
def posixSplitext (p : List Char) : List Char × List Char :=
  let revbn := (posixBasename p).reverse
  let extTail := revbn.takeWhile (fun c => c ≠ '.')
  match revbn.dropWhile (fun c => c ≠ '.') with
  | [] => (p, [])
  | _ :: preRev =>
    if preRev.all (fun c => c = '.') then (p, [])
    else
      let ext := '.' :: extTail.reverse
      (p.take (p.length - ext.length), ext)

/-- Embedding of `util.get_file_extension` (util.py:114-115):
`os.path.splitext(file_path)[1].lower()[1:].strip()`. -/
def get_file_extension (p : List Char) : List Char :=
  pyStripL ((pyLowerL (posixSplitext p).2).drop 1)

/-- Embedding of `util.get_file_name_no_extension` (util.py:118-119):
`os.path.basename(os.path.splitext(file_path)[0])`. -/
def get_file_name_no_extension (p : List Char) : List Char :=
  posixBasename (posixSplitext p).1

/-- Embedding of `tags.TAG_WORD_SEP` (tags.py:46). -/
def TAG_WORD_SEP : Char := '-'

/-- Embedding of `tags.TAG_START_CHAR` (tags.py:45). -/
def TAG_START_CHAR : Char := '#'

/-- The set of separators replaced by `Tag.normalize_name` (tags.py:107). -/
def commonSeparators : List Char := ['-', '_', '.', ' ']

/-- Embedding of the separator-replacement loop of `Tag.normalize_name`
(tags.py:108-109): each common separator becomes the canonical one. -/
def replaceSeps (l : List Char) : List Char :=
  l.map (fun c => if c ∈ commonSeparators then TAG_WORD_SEP else c)

/-- Embedding of `Tag.normalize_name` (tags.py:105-119): lowercase, strip,
replace common separators with `TAG_WORD_SEP`, keep only alphanumerics and the
separator, fail (`exception.Error`, modelled as `Except.error ()`) when the
result is empty, and strip once more. -/
def Tag.normalize_name (name : List Char) : Except Unit (List Char) :=
  let n1 := pyStripL (pyLowerL name)
  let n2 := replaceSeps n1
  let n3 := n2.filter (fun c => pyIsAlnum c || c == TAG_WORD_SEP)
  if n3.isEmpty then .error () else .ok (pyStripL n3)

/-- Embedding of the `Tag` class (tags.py:80-119): holds the canonical name.
The `value` attribute is derived (`TAG_START_CHAR + name`). -/
structure Tag where
  name : List Char
  deriving DecidableEq, Repr

instance : Inhabited Tag := ⟨⟨[]⟩⟩

/-- Embedding of the `value` attribute set in `Tag.__init__` (tags.py:84). -/
def Tag.value (t : Tag) : List Char := TAG_START_CHAR :: t.name

/-- Embedding of `Tag.__init__` (tags.py:82-84): construction normalizes the
raw text and fails when normalization fails. -/
def Tag.construct (raw : List Char) : Except Unit Tag :=
  (Tag.normalize_name raw).map Tag.mk

/-- Embedding of `Tag.__eq__` on two actual Tags (tags.py:95-98): canonical
names compared for equality. -/
def Tag.eqB (a b : Tag) : Bool := a.name == b.name

/-- Embedding of `Tag.__gt__` on two actual Tags (tags.py:100-103): compares
only the code points of the first characters of the canonical names.  In the
program a `Tag` name is never empty, so the `headD` default is never hit. -/
def Tag.gtB (a b : Tag) : Bool := (a.name.headD '-').toNat > (b.name.headD '-').toNat

/-- Embedding of the `__lt__` derived by `functools.total_ordering` from
`Tag.__gt__` (tags.py:80): `a < b` is `not a.__gt__(b) and a != b`. -/
def Tag.ltB (a b : Tag) : Bool := !(Tag.gtB a b) && !(Tag.eqB a b)

/-- Dynamic Python values a `Tag` can be compared against: either an actual
`Tag` or any non-`Tag` value (modelled by a single constructor carrying an
uninterpreted payload, since the comparison methods only isinstance-check it). -/
inductive PyVal where
  | tagv (t : Tag) : PyVal
  | nonTag (payload : List Char) : PyVal
  deriving DecidableEq

/-- Comparison errors: `NotImplementedError` raised by `Tag.__eq__` and
`Tag.__gt__` on a non-`Tag` argument (tags.py:97, tags.py:102). -/
inductive PyCmpErr where
  | notImplementedErr
  deriving DecidableEq

/-- Embedding of `Tag.__eq__` (tags.py:95-98) as called on a dynamic value:
raises `NotImplementedError` unless the other value is a `Tag`. -/
def Tag.eqPy (t : Tag) (v : PyVal) : Except PyCmpErr Bool :=
  match v with
  | .tagv u => .ok (Tag.eqB t u)
  | .nonTag _ => .error .notImplementedErr

/-- Embedding of `Tag.__gt__` (tags.py:100-103) as called on a dynamic value. -/
def Tag.gtPy (t : Tag) (v : PyVal) : Except PyCmpErr Bool :=
  match v with
  | .tagv u => .ok (Tag.gtB t u)
  | .nonTag _ => .error .notImplementedErr

/-- Embedding of the `__lt__` that `functools.total_ordering` derives from
`Tag.__gt__`: it first calls `self.__gt__(other)`, so the raised
`NotImplementedError` propagates, then evaluates `self != other`. -/
def Tag.ltPy (t : Tag) (v : PyVal) : Except PyCmpErr Bool :=
  match Tag.gtPy t v with
  | .error e => .error e
  | .ok g =>
    match Tag.eqPy t v with
    | .error e => .error e
    | .ok e => .ok (!g && !e)

/-- Embedding of the derived `__le__` (`not a.__gt__(b)`). -/
def Tag.lePy (t : Tag) (v : PyVal) : Except PyCmpErr Bool :=
  match Tag.gtPy t v with
  | .error e => .error e
  | .ok g => .ok (!g)

/-- Embedding of the derived `__ge__` (`a.__gt__(b) or a == b`). -/
def Tag.gePy (t : Tag) (v : PyVal) : Except PyCmpErr Bool :=
  match Tag.gtPy t v with
  | .error e => .error e
  | .ok g =>
    if g then .ok true
    else
      match Tag.eqPy t v with
      | .error e => .error e
      | .ok e => .ok e

/-- Characters matched by the body of `TAG_REGEX` (tags.py:47), the class
`[a-z0-9-]`: lowercase ASCII letters, digits, and the canonical separator. -/
def isTagChar (c : Char) : Bool := isLowerAZ c || isDigit09 c || c = '-'

/-- Embedding of `re.findall(TAG_REGEX, ...)` (tags.py:206): a left-to-right
scan for maximal tokens `TAG_START_CHAR` followed by one or more tag
characters.  `acc` holds the reversed body of the candidate token currently
being read (`some []` right after an unmatched-so-far marker character); after
a failed candidate the scan resumes at the character following the marker, as
the regex engine does. -/
def tagScanGo (acc : Option (List Char)) : List Char → List (List Char)
  | [] =>
    match acc with
    | some a => if a.isEmpty then [] else ['#' :: a.reverse]
    | none => []
  | c :: rest =>
    match acc with
    | some a =>
      if isTagChar c then tagScanGo (some (c :: a)) rest
      else if a.isEmpty then
        if c = '#' then tagScanGo (some []) rest else tagScanGo none rest
      else
        ('#' :: a.reverse) ::
          (if c = '#' then tagScanGo (some []) rest else tagScanGo none rest)
    | none => if c = '#' then tagScanGo (some []) rest else tagScanGo none rest

/-- All tag tokens of a file name, in match order (model of `re.findall`). -/
def findTagTokens (name : List Char) : List (List Char) := tagScanGo none name

/-- Embedding of `re.sub(TAG_REGEX, "", ...)` (tags.py:183): the same scan,
keeping every character that is not part of a matched token.  A marker
character that starts no match is kept. -/
def subTagsGo (acc : Option (List Char)) : List Char → List Char
  | [] =>
    match acc with
    | some a => if a.isEmpty then ['#'] else []
    | none => []
  | c :: rest =>
    match acc with
    | some a =>
      if isTagChar c then subTagsGo (some (c :: a)) rest
      else if a.isEmpty then
        '#' :: (if c = '#' then subTagsGo (some []) rest else c :: subTagsGo none rest)
      else
        (if c = '#' then subTagsGo (some []) rest else c :: subTagsGo none rest)
    | none => if c = '#' then subTagsGo (some []) rest else c :: subTagsGo none rest

/-- A file name with all matched tag tokens removed (model of `re.sub`). -/
def removeTagTokens (name : List Char) : List Char := subTagsGo none name

/-- Embedding of `TaggedFile.parsed_tags` (tags.py:198-217): construct a `Tag`
from every matched token, silently dropping tokens whose construction fails,
and collect the results as a set.  The Python `set` is modelled as a list
deduplicated by canonical name, in first-insertion order (one deterministic
materialization of the unordered set). -/
def parsed_tags (name : List Char) : List Tag :=
  (findTagTokens name).foldl
    (fun acc tok =>
      match Tag.construct tok with
      | .ok t => if acc.any (fun u => u.name == t.name) then acc else acc ++ [t]
      | .error _ => acc)
    []

/-- Embedding of `TaggedFile.parsed_tagless_name` (tags.py:181-196): remove the
tag tokens, collapse repeating whitespace, and strip. -/
def parsed_tagless_name (name : List Char) : List Char :=
  pyStripL (trim_repeating_whitespace (removeTagTokens name))

/-- Embedding of the `TaggedFile` class state (tags.py:122-127). -/
structure TaggedFile where
  path : List Char
  name : List Char
  tags : List Tag
  tagless_name : List Char
  deriving DecidableEq, Repr

/-- Embedding of `TaggedFile.__init__` (tags.py:123-127). -/
def TaggedFile.construct (path : List Char) : TaggedFile :=
  let name := posixBasename path
  { path := path
    name := name
    tags := parsed_tags name
    tagless_name := parsed_tagless_name name }

/-- Embedding of `TaggedFile.add_tag` (tags.py:175-176): set insertion,
a no-op when a tag of the same canonical name is already present. -/
def TaggedFile.add_tag (tf : TaggedFile) (t : Tag) : TaggedFile :=
  if tf.tags.any (fun u => u.name == t.name) then tf
  else { tf with tags := tf.tags ++ [t] }

/-- Embedding of `TaggedFile.remove_tag` (tags.py:178-179): `set.discard`,
a no-op when no tag of that canonical name is present. -/
def TaggedFile.remove_tag (tf : TaggedFile) (t : Tag) : TaggedFile :=
  { tf with tags := tf.tags.filter (fun u => !(u.name == t.name)) }

/-- Fuel-indexed binary search for the insertion point of `pivot` in
`acc[l:r]`, exactly as CPython's `binarysort` performs it (compare
`pivot < acc[m]`, move `r` down on true, `l` past `m` on false).  The fuel
`r - l` always suffices because the interval shrinks at every step. -/
def binSearchLoF (pivot : Tag) (acc : List Tag) : Nat → Nat → Nat → Nat
  | 0, l, _ => l
  | fuel + 1, l, r =>
    if l < r then
      let m := (l + r) / 2
      if Tag.ltB pivot (acc.getD m default) then binSearchLoF pivot acc fuel l m
      else binSearchLoF pivot acc fuel (m + 1) r
    else l

/-- Insertion position used by the model of `sorted` below. -/
def binSearchLo (pivot : Tag) (acc : List Tag) : Nat :=
  binSearchLoF pivot acc acc.length 0 acc.length

/-- Model of CPython's `sorted` on a small list of Tags under the Tag
comparator: binary insertion sort, processing elements left to right and
inserting each at the position found by binary search with `__lt__`.  This is
exactly what CPython's timsort does for fewer than 64 elements; the Tag
comparator is not a strict order (see the C3 analysis), so the sort is pinned
to the algorithm rather than to a sortedness property. -/
def pySortedAux (acc : List Tag) : List Tag → List Tag
  | [] => acc
  | t :: rest => pySortedAux (acc.insertIdx (binSearchLo t acc) t) rest

/-- Model of `sorted(self.tags)` (tags.py:146). -/
def pySorted (l : List Tag) : List Tag := pySortedAux [] l

/-- Embedding of the tag-suffix part of `TaggedFile.new_name` (tags.py:146-147):
a space followed by the sorted rendered tags joined by spaces, or empty. -/
def tagSuffix (tags : List Tag) : List Char :=
  if tags.isEmpty then []
  else ' ' :: List.intercalate [' '] ((pySorted tags).map Tag.value)

/-- Embedding of `TaggedFile.new_name` (tags.py:140-154). -/
def TaggedFile.new_name (tf : TaggedFile) : List Char :=
  let namePart :=
    pyStripL (trim_repeating_whitespace
      (get_file_name_no_extension tf.tagless_name ++ tagSuffix tf.tags))
  let ext := get_file_extension tf.tagless_name
  pyStripL (namePart ++ (if ext.isEmpty then [] else '.' :: ext))

/-- Embedding of `TaggedFile.new_path` (tags.py:156-158). -/
def TaggedFile.new_path (tf : TaggedFile) : List Char :=
  posixJoin (posixDirname tf.path) tf.new_name

/-- The filesystem namespace: the list of currently existing paths (a path
exists iff it is a member). -/
abbrev FS := List (List Char)

/-- Model of `os.rename`: fails (OSError) when the source path does not exist;
on success the source stops existing and the destination exists. -/
def osRename (src dst : List Char) (fs : FS) : Except Unit FS :=
  if src ∈ fs then .ok (dst :: fs.filter (fun q => q ≠ src)) else .error ()

/-- Embedding of `TaggedFile.write` (tags.py:160-173): a no-op when the new
path equals the current path, otherwise one rename whose OSError is re-raised
as `exception.Error`.  Note that `self.path` is not updated on success. -/
def TaggedFile.write (tf : TaggedFile) (fs : FS) : Except Unit FS :=
  if tf.new_path = tf.path then .ok fs
  else osRename tf.path tf.new_path fs

/-- The data carried by the `exception.Error` raised in `rename_files`
(tags.py:383-390): the two numbers interpolated into
`"While renaming file {}/{}"`, namely `len(renamed_files) + 1` and
`len(tagged_files)`. -/
structure BatchRenameErr where
  failedFileOrdinal : Nat
  totalFiles : Nat
  deriving DecidableEq, Repr

/-- Embedding of the loop body of `rename_files` (tags.py:377-392), carrying
the running size of `renamed_files` and threading the filesystem.  The
returned filesystem is the state at the moment the loop stopped (Python
raises, leaving already-performed renames in place). -/
def rename_filesAux (total renamed : Nat) : List TaggedFile → FS → FS × Option BatchRenameErr
  | [], fs => (fs, none)
  | f :: rest, fs =>
    match f.write fs with
    | .ok fs' => rename_filesAux total (renamed + 1) rest fs'
    | .error _ => (fs, some ⟨renamed + 1, total⟩)

/-- Embedding of `rename_files` (tags.py:377-392).  The Python argument is a
set; the model takes its elements in some iteration order. -/
def rename_files (files : List TaggedFile) (fs : FS) : FS × Option BatchRenameErr :=
  rename_filesAux files.length 0 files fs

/-- Helper: run `write` on each file in order, `none` as soon as one fails. -/
def writeAll : List TaggedFile → FS → Option FS
  | [], fs => some fs
  | f :: rest, fs =>
    match f.write fs with
    | .ok fs' => writeAll rest fs'
    | .error _ => none

/-- C1 (counterexample): in a batch of 5 changed files where the 3rd write
fails, the failure raised by `rename_files` reports the pair (3, 5) — the
1-based ordinal of the failing file and the total — although only 2 files had
been renamed successfully at that point (visible in the resulting filesystem:
files 1 and 2 renamed, file 3 failed, files 4 and 5 untouched).  The claim
says the report states 2, the number of successful renames, but 3 ≠ 2. -/
theorem rename_files_count_counterexample :
    rename_files
      [TaggedFile.construct "/d/#t f1".data, TaggedFile.construct "/d/#t f2".data,
       TaggedFile.construct "/d/#t f3".data, TaggedFile.construct "/d/#t f4".data,
       TaggedFile.construct "/d/#t f5".data]
      ["/d/#t f1".data, "/d/#t f2".data, "/d/#t f4".data, "/d/#t f5".data]
      = (["/d/f2 #t".data, "/d/f1 #t".data, "/d/#t f4".data, "/d/#t f5".data],
         some ⟨3, 5⟩)
    ∧ (3 : Nat) ≠ 2 := by
  constructor
  · rfl
  · decide

/-- C2 (counterexample): a `TaggedFile` whose first `write()` succeeded by
performing a rename; an immediately following second `write()` on the same
object attempts the rename again (the object's `path` was never updated) and
fails, instead of being a no-op. -/
theorem write_idempotent_counterexample :
    (TaggedFile.construct "/d/#t f".data).write ["/d/#t f".data]
      = .ok ["/d/f #t".data]
    ∧ (TaggedFile.construct "/d/#t f".data).write ["/d/f #t".data]
      = .error () := by
  constructor
  · rfl
  · rfl

/-- C3 (counterexample): the Tags built from `"ab"` and `"ac"` have equal
first characters and different canonical names, and `a < b` and `b < a` BOTH
hold (the derived `__lt__` is `not a > b and a != b`), contradicting the claim
that neither holds when the first characters are equal. -/
theorem tag_lt_counterexample :
    Tag.construct "ab".data = .ok (Tag.mk "ab".data)
    ∧ Tag.construct "ac".data = .ok (Tag.mk "ac".data)
    ∧ ("ab".data.headD '-') = ("ac".data.headD '-')
    ∧ Tag.ltB (Tag.mk "ab".data) (Tag.mk "ac".data) = true
    ∧ Tag.ltB (Tag.mk "ac".data) (Tag.mk "ab".data) = true := by
  refine ⟨rfl, rfl, rfl, rfl, rfl⟩

/-- C4 (code evaluation at the failing input): for the file name
`"justfilename #tagC #tagB #tagA"` the code computes the new name
`"justfilename C B A #tag"` — the tag regex matches lowercase only, so each
`#tagX` parses as the token `#tag`, the three tokens collapse into the single
tag `tag`, and the uppercase letters are left behind in the base name — not
`"justfilename #tagA #tagB #tagC"` as the claim (and the repository's own test
`tags_test.py:148-150`) states. -/
theorem new_name_uppercase_tags_eval :
    (TaggedFile.construct "justfilename #tagC #tagB #tagA".data).new_name
      = "justfilename C B A #tag".data
    ∧ "justfilename C B A #tag".data ≠ "justfilename #tagA #tagB #tagC".data := by
  constructor
  · rfl
  · decide

/-- C5 (counterexample): for a `TaggedFile` whose `tagless_name` is
`"file.TXT"`, the extension is present but `new_name` is `"file.txt"`: the
code lowercases the extension instead of preserving its original case. -/
theorem extension_case_counterexample :
    get_file_extension (TaggedFile.construct "file.TXT".data).tagless_name
      = "txt".data
    ∧ (TaggedFile.construct "file.TXT".data).new_name = "file.txt".data
    ∧ "file.txt".data ≠ "file.TXT".data := by
  refine ⟨rfl, rfl, by decide⟩

/-- C6 (counterexample): for the file name `" a  b "` (no tag tokens) the
computed `tagless_name` is `"a b"`: the whitespace run is collapsed AND the
leading/trailing whitespace is stripped, contradicting the claim that no
trimming happens at this stage (which would give `" a b "`). -/
theorem tagless_trim_counterexample :
    (TaggedFile.construct " a  b ".data).tagless_name = "a b".data
    ∧ "a b".data ≠ " a b ".data := by
  refine ⟨rfl, by decide⟩

/-- C8 (code evaluation at the failing input): `Tag` construction SUCCEEDS on
the separator-only texts `"-"` and `"_"`, producing the canonical name `"-"`
(the normalization filter keeps the canonical separator), although the claim —
and the repository's own test (`tags_test.py:33`, which lists `TAG_WORD_SEP`
among the invalid tag names) — requires construction to fail on text with no
alphanumeric characters. -/
theorem tag_separator_only_eval :
    Tag.construct "-".data = .ok (Tag.mk "-".data)
    ∧ Tag.construct "_".data = .ok (Tag.mk "-".data) := by
  refine ⟨rfl, rfl⟩

/-- C10: comparing a `Tag` with any non-`Tag` value raises
`NotImplementedError` for equality, for `__gt__`, and for every comparison
`functools.total_ordering` derives from them — never a normal boolean. -/
theorem tag_cmp_non_tag_raises (t : Tag) (payload : List Char) :
    Tag.eqPy t (.nonTag payload) = .error .notImplementedErr
    ∧ Tag.gtPy t (.nonTag payload) = .error .notImplementedErr
    ∧ Tag.ltPy t (.nonTag payload) = .error .notImplementedErr
    ∧ Tag.lePy t (.nonTag payload) = .error .notImplementedErr
    ∧ Tag.gePy t (.nonTag payload) = .error .notImplementedErr :=
  ⟨rfl, rfl, rfl, rfl, rfl⟩

/-- Evaluating `Char.ofNat` at a scalar value below the surrogate range. -/
theorem charOfNat_toNat (n : Nat) (h : n < 55296) : (Char.ofNat n).toNat = n := by
  rw [Char.ofNat, dif_pos (Or.inl h : n.isValidChar)]
  exact rfl

/-- Lowercasing never produces an uppercase ASCII letter. -/
theorem pyToLower_not_upper (c : Char) : isUpperAZ (pyToLower c) = false := by
  unfold pyToLower
  by_cases h : isUpperAZ c = true
  · rw [if_pos h]
    have hb : 65 ≤ c.toNat ∧ c.toNat ≤ 90 := by
      simpa [isUpperAZ, Bool.and_eq_true, decide_eq_true_eq] using h
    have ht : (Char.ofNat (c.toNat + 32)).toNat = c.toNat + 32 :=
      charOfNat_toNat _ (by omega)
    simp only [isUpperAZ, ht]
    have : ¬(65 ≤ c.toNat + 32 ∧ c.toNat + 32 ≤ 90) := by omega
    simp [decide_eq_true_eq]
    omega
  · rw [if_neg h]
    by_cases h2 : c.toNat = 201
    · rw [if_pos h2]; decide
    · rw [if_neg h2]
      exact Bool.not_eq_true _ ▸ (Bool.eq_false_iff.mpr h)

/-- Lowercasing preserves alphanumeric-ness. -/
theorem pyToLower_alnum (c : Char) (h : pyIsAlnum c = true) :
    pyIsAlnum (pyToLower c) = true := by
  unfold pyToLower
  by_cases hu : isUpperAZ c = true
  · rw [if_pos hu]
    have hb : 65 ≤ c.toNat ∧ c.toNat ≤ 90 := by
      simpa [isUpperAZ, Bool.and_eq_true, decide_eq_true_eq] using hu
    have ht : (Char.ofNat (c.toNat + 32)).toNat = c.toNat + 32 :=
      charOfNat_toNat _ (by omega)
    simp only [pyIsAlnum, isUpperAZ, isLowerAZ, isDigit09, ht, Bool.or_eq_true,
      Bool.and_eq_true, decide_eq_true_eq]
    omega
  · rw [if_neg hu]
    by_cases h2 : c.toNat = 201
    · rw [if_pos h2]; decide
    · rw [if_neg h2]; exact h

/-- Lowercasing keeps ASCII characters in the ASCII range. -/
theorem pyToLower_ascii (c : Char) (h : c.toNat < 128) : (pyToLower c).toNat < 128 := by
  unfold pyToLower
  by_cases hu : isUpperAZ c = true
  · rw [if_pos hu]
    have hb : 65 ≤ c.toNat ∧ c.toNat ≤ 90 := by
      simpa [isUpperAZ, Bool.and_eq_true, decide_eq_true_eq] using hu
    rw [charOfNat_toNat _ (by omega)]
    omega
  · rw [if_neg hu]
    by_cases h2 : c.toNat = 201
    · exact absurd h2 (by omega)
    · rw [if_neg h2]; exact h

/-- Alphanumeric characters are not whitespace. -/
theorem alnum_not_space (c : Char) (h : pyIsAlnum c = true) : pyIsSpace c = false := by
  simp only [pyIsAlnum, isUpperAZ, isLowerAZ, isDigit09, Bool.or_eq_true,
    Bool.and_eq_true, decide_eq_true_eq] at h
  simp only [pyIsSpace, Bool.or_eq_false_iff, decide_eq_false_iff_not]
  omega

/-- Alphanumeric characters are not common separators. -/
theorem alnum_not_sep (c : Char) (h : pyIsAlnum c = true) : c ∉ commonSeparators := by
  intro hmem
  simp only [commonSeparators, List.mem_cons, List.not_mem_nil, or_false] at hmem
  rcases hmem with h1 | h1 | h1 | h1 <;> subst h1 <;> simp_all [pyIsAlnum, isUpperAZ,
    isLowerAZ, isDigit09]

/-- ASCII alphanumeric characters that are not uppercase are lowercase or
digits (the non-ASCII alphanumerics of the model are excluded by the ASCII
bound). -/
theorem alnum_not_upper_cases (c : Char) (hascii : c.toNat < 128)
    (h : pyIsAlnum c = true) (hu : isUpperAZ c = false) :
    isLowerAZ c = true ∨ isDigit09 c = true := by
  simp only [pyIsAlnum, Bool.or_eq_true, decide_eq_true_eq] at h
  rcases h with (((h1 | h1) | h1) | h1) | h1
  · rw [h1] at hu; cases hu
  · exact Or.inl h1
  · exact Or.inr h1
  · exact absurd h1 (by omega)
  · exact absurd h1 (by omega)

/-- Characters of the lowercased string are results of `pyToLower` on members
of the original string. -/
theorem mem_pyLowerL (c : Char) (l : List Char) (h : c ∈ pyLowerL l) :
    ∃ d ∈ l, c = pyToLower d := by
  obtain ⟨d, hdmem, hd⟩ := List.mem_map.mp h
  exact ⟨d, hdmem, hd.symm⟩

/-- A non-witness of `p` survives `dropWhile p`. -/
theorem mem_dropWhile_of_not (p : Char → Bool) (c : Char) (l : List Char)
    (hmem : c ∈ l) (hc : p c = false) : c ∈ l.dropWhile p := by
  induction l with
  | nil => cases hmem
  | cons a t ih =>
    rw [List.dropWhile_cons]
    by_cases ha : p a = true
    · rw [if_pos ha]
      rcases List.mem_cons.mp hmem with h1 | h1
      · subst h1; rw [hc] at ha; cases ha
      · exact ih h1
    · rw [if_neg ha]; exact hmem

/-- A non-whitespace member of a string survives `strip()`. -/
theorem mem_pyStripL_of_not_space (c : Char) (l : List Char)
    (hmem : c ∈ l) (hc : pyIsSpace c = false) : c ∈ pyStripL l := by
  unfold pyStripL
  rw [List.mem_reverse]
  refine mem_dropWhile_of_not _ _ _ ?_ hc
  rw [List.mem_reverse]
  exact mem_dropWhile_of_not _ _ _ hmem hc

/-- Members of the stripped string are members of the original. -/
theorem pyStripL_subset (c : Char) (l : List Char) (h : c ∈ pyStripL l) : c ∈ l := by
  unfold pyStripL at h
  rw [List.mem_reverse] at h
  have h2 := (List.dropWhile_suffix pyIsSpace).subset h
  rw [List.mem_reverse] at h2
  exact (List.dropWhile_suffix pyIsSpace).subset h2

/-- The head of a `dropWhile p` result does not satisfy `p`. -/
theorem dropWhile_head_not (p : Char → Bool) (l : List Char) (c : Char)
    (h : (l.dropWhile p).head? = some c) : p c = false := by
  induction l with
  | nil => cases h
  | cons a t ih =>
    rw [List.dropWhile_cons] at h
    by_cases ha : p a = true
    · rw [if_pos ha] at h; exact ih h
    · rw [if_neg ha] at h
      cases h
      exact Bool.eq_false_iff.mpr ha

/-- Suffixes share the last element. -/
theorem IsSuffix.getLast?_eq (l m : List Char) (h : l <:+ m) (hne : l ≠ []) :
    l.getLast? = m.getLast? := by
  obtain ⟨t, rfl⟩ := h
  rw [List.getLast?_append]
  cases hl : l.getLast? with
  | none => exact absurd (List.getLast?_eq_none_iff.mp hl) hne
  | some c => rfl

/-- The last character of a stripped string is not whitespace. -/
theorem pyStripL_getLast_not_space (l : List Char) (c : Char)
    (h : (pyStripL l).getLast? = some c) : pyIsSpace c = false := by
  unfold pyStripL at h
  rw [List.getLast?_reverse] at h
  exact dropWhile_head_not _ _ _ h

/-- The first character of a stripped string is not whitespace. -/
theorem pyStripL_head_not_space (l : List Char) (c : Char)
    (h : (pyStripL l).head? = some c) : pyIsSpace c = false := by
  unfold pyStripL at h
  rw [List.head?_reverse] at h
  have hne : (l.dropWhile pyIsSpace).reverse.dropWhile pyIsSpace ≠ [] := by
    intro hnil; rw [hnil] at h; cases h
  rw [IsSuffix.getLast?_eq _ _ (List.dropWhile_suffix pyIsSpace) hne] at h
  rw [List.getLast?_reverse] at h
  exact dropWhile_head_not _ _ _ h

/-- Stripping a string whose two ends are not whitespace is the identity. -/
theorem pyStripL_eq_self (l : List Char)
    (h1 : ∀ c, l.head? = some c → pyIsSpace c = false)
    (h2 : ∀ c, l.getLast? = some c → pyIsSpace c = false) :
    pyStripL l = l := by
  cases hl : l with
  | nil => rfl
  | cons a t =>
    subst hl
    have ha : pyIsSpace a = false := h1 a rfl
    unfold pyStripL
    rw [List.dropWhile_cons, if_neg (by rw [ha]; exact Bool.false_ne_true)]
    cases hr : (a :: t).reverse with
    | nil => exact absurd (List.reverse_eq_nil_iff.mp hr) (by simp)
    | cons b s =>
      have hb : pyIsSpace b = false := by
        refine h2 b ?_
        rw [← List.head?_reverse, hr]; rfl
      have hds : List.dropWhile pyIsSpace (b :: s) = b :: s := by
        rw [List.dropWhile_cons, if_neg (by rw [hb]; exact Bool.false_ne_true)]
      rw [hds, ← hr, List.reverse_reverse]

/-- C3 (amended): for Tags with non-empty canonical names (the only Tags the
program constructs), `a < b` holds iff the code point of the first character
of `a`'s name is LESS THAN OR EQUAL to that of `b`'s name AND the names
differ — `functools.total_ordering` derives `__lt__` as
`not a.__gt__(b) and a != b`.  Consequently, when the first characters are
equal but the names differ, `a < b` and `b < a` both hold. -/
theorem tag_lt_iff (a b : Tag) (ha : a.name ≠ []) (hb : b.name ≠ []) :
    Tag.ltB a b = true ↔
      ((a.name.headD '-').toNat ≤ (b.name.headD '-').toNat ∧ a.name ≠ b.name) := by
  simp only [Tag.ltB, Tag.gtB, Tag.eqB, Bool.and_eq_true, Bool.not_eq_true',
    decide_eq_false_iff_not, beq_eq_false_iff_ne, ne_eq, Nat.not_lt]

/-- Witness for `tag_lt_iff` at the Tags built from `"ab"` and `"ac"`. -/
theorem tag_lt_iff_witness :
    (Tag.mk "ab".data).name ≠ [] ∧ (Tag.mk "ac".data).name ≠ [] ∧
    (Tag.ltB (Tag.mk "ab".data) (Tag.mk "ac".data) = true ↔
      (((Tag.mk "ab".data).name.headD '-').toNat
          ≤ ((Tag.mk "ac".data).name.headD '-').toNat
        ∧ (Tag.mk "ab".data).name ≠ (Tag.mk "ac".data).name)) :=
  ⟨by decide, by decide, tag_lt_iff _ _ (by decide) (by decide)⟩

/-- C9: Tags built from two raw texts compare equal exactly when the
normalizations of the raw texts agree — equality is fully determined by the
canonical names, independent of the original casing and separator style. -/
theorem tag_eq_iff_canonical (a b : List Char) (ta tb : Tag)
    (hA : Tag.construct a = .ok ta) (hB : Tag.construct b = .ok tb) :
    (Tag.eqB ta tb = true ↔ Tag.normalize_name a = Tag.normalize_name b) := by
  have ha' : Tag.normalize_name a = .ok ta.name := by
    unfold Tag.construct at hA
    cases h : Tag.normalize_name a with
    | ok n => rw [h] at hA; cases hA; rfl
    | error e => rw [h] at hA; cases hA
  have hb' : Tag.normalize_name b = .ok tb.name := by
    unfold Tag.construct at hB
    cases h : Tag.normalize_name b with
    | ok n => rw [h] at hB; cases hB; rfl
    | error e => rw [h] at hB; cases hB
  rw [ha', hb', Tag.eqB, beq_iff_eq]
  constructor
  · intro h; rw [h]
  · intro h; exact (Except.ok.injEq _ _ ▸ congrArg id h : _)

/-- Witness for `tag_eq_iff_canonical`: the spec's example pair
`"tag.with-nonstandard_separators"` and `"tag-with-nonstandard-separators"`
canonicalize identically, so the Tags are equal although the raw texts use
different separator styles. -/
theorem tag_eq_iff_canonical_witness :
    Tag.construct "tag.with-nonstandard_separators".data
      = .ok (Tag.mk "tag-with-nonstandard-separators".data)
    ∧ Tag.construct "tag-with-nonstandard-separators".data
      = .ok (Tag.mk "tag-with-nonstandard-separators".data)
    ∧ Tag.eqB (Tag.mk "tag-with-nonstandard-separators".data)
        (Tag.mk "tag-with-nonstandard-separators".data) = true :=
  ⟨rfl, rfl,
    (tag_eq_iff_canonical "tag.with-nonstandard_separators".data
      "tag-with-nonstandard-separators".data _ _ rfl rfl).mpr rfl⟩

/-- C7 (counterexample): the raw text `"aé"` contains the ASCII alphanumeric
`'a'`, and `Tag` construction succeeds — but the resulting canonical name is
`"aé"`, whose character `'é'` is OUTSIDE the canonical alphabet (lowercase
ASCII letters, digits, the separator): Python's `str.isalnum` is
Unicode-aware, so the normalization filter keeps `'é'`.  This refutes the
claim's canonical-alphabet guarantee as stated over all raw texts. -/
theorem tag_name_unicode_counterexample :
    Tag.construct "aé".data = .ok (Tag.mk "aé".data)
    ∧ 'a' ∈ "aé".data ∧ pyIsAlnum 'a' = true
    ∧ 'é' ∈ (Tag.mk "aé".data).name
    ∧ ¬(isLowerAZ 'é' = true ∨ isDigit09 'é' = true ∨ 'é' = TAG_WORD_SEP) := by
  refine ⟨rfl, by decide, by decide, by decide, by decide⟩

/-- C7 (amended): for every raw tag text consisting only of ASCII characters
and containing at least one alphanumeric character, `Tag` construction
succeeds and the resulting canonical name is non-empty and consists only of
lowercase ASCII letters, digits, and the canonical word-separator. -/
theorem tag_name_canonical_ascii (raw : List Char)
    (hascii : ∀ c ∈ raw, c.toNat < 128)
    (h : ∃ c ∈ raw, pyIsAlnum c = true) :
    ∃ t, Tag.construct raw = .ok t ∧ t.name ≠ []
      ∧ ∀ c ∈ t.name, isLowerAZ c = true ∨ isDigit09 c = true ∨ c = TAG_WORD_SEP := by
  obtain ⟨c0, hc0mem, hc0⟩ := h
  set c1 := pyToLower c0 with hc1def
  have h1a : pyIsAlnum c1 = true := pyToLower_alnum c0 hc0
  have h1s : pyIsSpace c1 = false := alnum_not_space c1 h1a
  have h1 : c1 ∈ pyLowerL raw := List.mem_map_of_mem _ hc0mem
  have h2 : c1 ∈ pyStripL (pyLowerL raw) := mem_pyStripL_of_not_space _ _ h1 h1s
  have h3 : c1 ∈ replaceSeps (pyStripL (pyLowerL raw)) := by
    unfold replaceSeps
    refine List.mem_map.mpr ⟨c1, h2, ?_⟩
    rw [if_neg (alnum_not_sep c1 h1a)]
  have h4 : c1 ∈ (replaceSeps (pyStripL (pyLowerL raw))).filter
      (fun c => pyIsAlnum c || c == TAG_WORD_SEP) :=
    List.mem_filter.mpr ⟨h3, by rw [h1a, Bool.true_or]⟩
  have hne : ((replaceSeps (pyStripL (pyLowerL raw))).filter
      (fun c => pyIsAlnum c || c == TAG_WORD_SEP)).isEmpty = false := by
    rw [List.isEmpty_eq_false]
    exact List.ne_nil_of_mem h4
  have hnorm : Tag.normalize_name raw
      = .ok (pyStripL ((replaceSeps (pyStripL (pyLowerL raw))).filter
          (fun c => pyIsAlnum c || c == TAG_WORD_SEP))) := by
    simp only [Tag.normalize_name, hne, Bool.false_eq_true, if_false]
  refine ⟨Tag.mk (pyStripL ((replaceSeps (pyStripL (pyLowerL raw))).filter
    (fun c => pyIsAlnum c || c == TAG_WORD_SEP))), ?_, ?_, ?_⟩
  · unfold Tag.construct
    rw [hnorm]
    rfl
  · exact List.ne_nil_of_mem (mem_pyStripL_of_not_space _ _ h4 h1s)
  · intro c hc
    have hc' := pyStripL_subset _ _ hc
    obtain ⟨hcmem, hckeep⟩ := List.mem_filter.mp hc'
    rcases Bool.or_eq_true_iff.mp hckeep with hk | hk
    · -- alphanumeric: it came unchanged through replaceSeps from the
      -- lowercased string, so it is not uppercase
      obtain ⟨y, hy, hxy⟩ := List.mem_map.mp hcmem
      by_cases hysep : y ∈ commonSeparators
      · rw [if_pos hysep] at hxy
        exact Or.inr (Or.inr hxy.symm)
      · rw [if_neg hysep] at hxy
        subst hxy
        obtain ⟨d, hdmem, hd⟩ := mem_pyLowerL _ _ (pyStripL_subset _ _ hy)
        have hya : y.toNat < 128 := hd ▸ pyToLower_ascii d (hascii d hdmem)
        have hup : isUpperAZ y = false := hd ▸ pyToLower_not_upper d
        rcases alnum_not_upper_cases y hya hk hup with h | h
        · exact Or.inl h
        · exact Or.inr (Or.inl h)
    · exact Or.inr (Or.inr (beq_iff_eq.mp hk))

/-- Witness for `tag_name_canonical_ascii` at the raw text `" Tag Name! "`. -/
theorem tag_name_canonical_ascii_witness :
    (∀ c ∈ " Tag Name! ".data, c.toNat < 128)
    ∧ (∃ c ∈ " Tag Name! ".data, pyIsAlnum c = true)
    ∧ ∃ t, Tag.construct " Tag Name! ".data = .ok t ∧ t.name ≠ []
      ∧ ∀ c ∈ t.name, isLowerAZ c = true ∨ isDigit09 c = true ∨ c = TAG_WORD_SEP :=
  ⟨by decide, by decide, tag_name_canonical_ascii _ (by decide) (by decide)⟩

/-- C2 (amended): when `write()` succeeds by actually performing a rename, a
second `write()` on the same `TaggedFile` object is NOT a no-op: since the
object's `path` attribute is never updated, the second call attempts the same
rename again and fails, because the source path no longer exists. -/
theorem write_second_call_fails (tf : TaggedFile) (fs : FS)
    (hne : tf.new_path ≠ tf.path) (hmem : tf.path ∈ fs) :
    tf.write fs = .ok (tf.new_path :: fs.filter (fun q => q ≠ tf.path))
    ∧ tf.write (tf.new_path :: fs.filter (fun q => q ≠ tf.path)) = .error () := by
  constructor
  · unfold TaggedFile.write
    rw [if_neg hne]
    unfold osRename
    rw [if_pos hmem]
  · unfold TaggedFile.write
    rw [if_neg hne]
    unfold osRename
    rw [if_neg ?_]
    intro hmem2
    rcases List.mem_cons.mp hmem2 with h1 | h1
    · exact hne h1.symm
    · have := (List.mem_filter.mp h1).2
      simp only [decide_eq_true_eq] at this
      exact this rfl

/-- Witness for `write_second_call_fails` at a concrete file and filesystem. -/
theorem write_second_call_fails_witness :
    ((TaggedFile.construct "/d/#t f".data).new_path
        ≠ (TaggedFile.construct "/d/#t f".data).path)
    ∧ ((TaggedFile.construct "/d/#t f".data).path ∈ (["/d/#t f".data] : FS))
    ∧ ((TaggedFile.construct "/d/#t f".data).write ["/d/#t f".data]
        = .ok ((TaggedFile.construct "/d/#t f".data).new_path
            :: (["/d/#t f".data] : FS).filter
             (fun q => q ≠ (TaggedFile.construct "/d/#t f".data).path))
      ∧ (TaggedFile.construct "/d/#t f".data).write
          ((TaggedFile.construct "/d/#t f".data).new_path
            :: (["/d/#t f".data] : FS).filter
             (fun q => q ≠ (TaggedFile.construct "/d/#t f".data).path))
        = .error ()) :=
  ⟨by decide, by decide, write_second_call_fails _ _ (by decide) (by decide)⟩

/-- Auxiliary form of the fail-fast property of `rename_files`, tracking the
running `renamed_files` counter. -/
theorem rename_filesAux_fail (total : Nat) (f : TaggedFile) (post : List TaggedFile)
    (pre : List TaggedFile) : ∀ (k : Nat) (fs fs1 : FS),
    writeAll pre fs = some fs1 → f.write fs1 = .error () →
    rename_filesAux total k (pre ++ f :: post) fs
      = (fs1, some ⟨k + pre.length + 1, total⟩) := by
  induction pre with
  | nil =>
    intro k fs fs1 hpre hf
    cases hpre
    simp only [List.nil_append, rename_filesAux, hf, List.length_nil, Nat.add_zero]
  | cons g rest ih =>
    intro k fs fs1 hpre hf
    simp only [writeAll] at hpre
    cases hw : g.write fs with
    | ok fs' =>
      rw [hw] at hpre
      have hpre' : writeAll rest fs' = some fs1 := hpre
      rw [List.cons_append]
      simp only [rename_filesAux, hw]
      rw [ih (k + 1) fs' fs1 hpre' hf]
      have harith : k + 1 + rest.length + 1 = k + (g :: rest).length + 1 := by
        rw [List.length_cons]
        omega
      rw [harith]
    | error e =>
      rw [hw] at hpre
      cases hpre

/-- C1 (amended): when every file before some file `f` in the batch renames
successfully and `f`'s `write()` fails, `rename_files` stops at `f` — the
files after `f` are never attempted and the filesystem keeps exactly the
renames already performed (no rollback) — and the raised failure reports the
1-based ordinal of the failing file (one more than the number of files already
renamed successfully) together with the total number of files targeted. -/
theorem rename_files_fail_fast (pre post : List TaggedFile) (f : TaggedFile)
    (fs fs1 : FS) (hpre : writeAll pre fs = some fs1) (hf : f.write fs1 = .error ()) :
    rename_files (pre ++ f :: post) fs
      = (fs1, some ⟨pre.length + 1, (pre ++ f :: post).length⟩) := by
  unfold rename_files
  rw [rename_filesAux_fail _ f post pre 0 fs fs1 hpre hf]
  have h0 : 0 + pre.length + 1 = pre.length + 1 := by omega
  rw [h0]

/-- Witness for `rename_files_fail_fast`: the concrete batch of 5 files from
the C1 counterexample, failing at the 3rd file. -/
theorem rename_files_fail_fast_witness :
    writeAll [TaggedFile.construct "/d/#t f1".data, TaggedFile.construct "/d/#t f2".data]
        ["/d/#t f1".data, "/d/#t f2".data, "/d/#t f4".data, "/d/#t f5".data]
      = some ["/d/f2 #t".data, "/d/f1 #t".data, "/d/#t f4".data, "/d/#t f5".data]
    ∧ (TaggedFile.construct "/d/#t f3".data).write
        ["/d/f2 #t".data, "/d/f1 #t".data, "/d/#t f4".data, "/d/#t f5".data]
      = .error ()
    ∧ rename_files
        ([TaggedFile.construct "/d/#t f1".data, TaggedFile.construct "/d/#t f2".data]
          ++ TaggedFile.construct "/d/#t f3".data
            :: [TaggedFile.construct "/d/#t f4".data, TaggedFile.construct "/d/#t f5".data])
        ["/d/#t f1".data, "/d/#t f2".data, "/d/#t f4".data, "/d/#t f5".data]
      = (["/d/f2 #t".data, "/d/f1 #t".data, "/d/#t f4".data, "/d/#t f5".data],
         some ⟨3, 5⟩) :=
  ⟨rfl, rfl, rename_files_fail_fast _ _ _ _ _ rfl rfl⟩

/-- C5 (amended): when `tagless_name` has a file extension, `new_name`
re-appends that extension LOWERCASED (the extension's presence is matched on
the original name, but `get_file_extension` lowercases the output, so a name
ending in `".TXT"` yields `".txt"`): the new name is exactly the stripped
name-plus-tags part followed by a dot and the lowercased extension, which
contains no uppercase ASCII letter. -/
theorem new_name_extension_lowercased (tf : TaggedFile)
    (hext : get_file_extension tf.tagless_name ≠ []) :
    tf.new_name
      = pyStripL (trim_repeating_whitespace
          (get_file_name_no_extension tf.tagless_name ++ tagSuffix tf.tags))
        ++ '.' :: get_file_extension tf.tagless_name
    ∧ ∀ c ∈ get_file_extension tf.tagless_name, isUpperAZ c = false := by
  constructor
  · show pyStripL
        (pyStripL (trim_repeating_whitespace
            (get_file_name_no_extension tf.tagless_name ++ tagSuffix tf.tags))
          ++ (if (get_file_extension tf.tagless_name).isEmpty then []
              else '.' :: get_file_extension tf.tagless_name)) = _
    rw [if_neg (by simp only [List.isEmpty_iff]; exact hext)]
    refine pyStripL_eq_self _ ?_ ?_
    · intro c hc
      rw [List.head?_append] at hc
      cases hh : (pyStripL (trim_repeating_whitespace
          (get_file_name_no_extension tf.tagless_name ++ tagSuffix tf.tags))).head? with
      | none =>
        rw [hh] at hc
        simp only [Option.none_or] at hc
        cases hc
        decide
      | some d =>
        rw [hh] at hc
        simp only [Option.or_some] at hc
        cases hc
        exact pyStripL_head_not_space _ _ hh
    · intro c hc
      rw [List.getLast?_append] at hc
      obtain ⟨e, he⟩ : ∃ e, (get_file_extension tf.tagless_name).getLast? = some e := by
        cases hl : (get_file_extension tf.tagless_name).getLast? with
        | none => exact absurd (List.getLast?_eq_none_iff.mp hl) hext
        | some e => exact ⟨e, rfl⟩
      have hcons : ('.' :: get_file_extension tf.tagless_name).getLast? = some e := by
        have : ('.' :: get_file_extension tf.tagless_name)
            = ['.'] ++ get_file_extension tf.tagless_name := rfl
        rw [this, List.getLast?_append, he]
        rfl
      rw [hcons] at hc
      simp only [Option.or_some] at hc
      cases hc
      exact pyStripL_getLast_not_space _ _ he
  · intro c hc
    unfold get_file_extension at hc
    have h1 := pyStripL_subset _ _ hc
    have h2 := List.mem_of_mem_drop h1
    obtain ⟨d, _, hd⟩ := mem_pyLowerL _ _ h2
    rw [hd]
    exact pyToLower_not_upper d

/-- Witness for `new_name_extension_lowercased` at `"file.TXT"`. -/
theorem new_name_extension_lowercased_witness :
    (get_file_extension (TaggedFile.construct "file.TXT".data).tagless_name ≠ [])
    ∧ ((TaggedFile.construct "file.TXT".data).new_name
        = pyStripL (trim_repeating_whitespace
            (get_file_name_no_extension (TaggedFile.construct "file.TXT".data).tagless_name
              ++ tagSuffix (TaggedFile.construct "file.TXT".data).tags))
          ++ '.' :: get_file_extension (TaggedFile.construct "file.TXT".data).tagless_name
      ∧ ∀ c ∈ get_file_extension (TaggedFile.construct "file.TXT".data).tagless_name,
          isUpperAZ c = false) :=
  ⟨by decide, new_name_extension_lowercased _ (by decide)⟩

/-- Spec-side definition following the wording of spec §4.3: collapse each run
of consecutive identical whitespace characters to a single one, phrased
positionally — a character is dropped exactly when it is whitespace and equal
to the immediately preceding character of the ORIGINAL string (`prevOrig`).
This differs in formulation from the code's fold, which compares against the
previously KEPT character. -/
def spec_collapse_go (prevOrig : Option Char) : List Char → List Char
  | [] => []
  | c :: rest =>
    if pyIsSpace c && prevOrig == some c then spec_collapse_go (some c) rest
    else c :: spec_collapse_go (some c) rest

/-- Spec-side whitespace-run collapse (spec §4.3). -/
def spec_collapse_ws_runs (l : List Char) : List Char := spec_collapse_go none l

/-- The code's fold (previous kept character) computes exactly the spec's
positional collapse (previous original character): whenever a character is
skipped the two notions of predecessor coincide. -/
theorem trimWsGo_eq_spec (l : List Char) : ∀ prev : Option Char,
    trimWsGo prev l = spec_collapse_go prev l := by
  induction l with
  | nil => intro prev; rfl
  | cons c rest ih =>
    intro prev
    unfold trimWsGo spec_collapse_go
    by_cases hcond : (pyIsSpace c && (prev == some c)) = true
    · rw [if_pos hcond, if_pos hcond]
      have hprev : prev = some c := by
        have h2 := hcond
        simp only [Bool.and_eq_true, beq_iff_eq] at h2
        exact h2.2
      rw [hprev]
      exact ih (some c)
    · rw [if_neg hcond, if_neg hcond, ih (some c)]

/-- C6 (amended): the `tagless_name` computed at construction equals the name
with every matched tag token removed at its original match position, with runs
of consecutive identical whitespace characters collapsed to one (spec §4.3
wording), and WITH leading/trailing whitespace stripped at this stage. -/
theorem tagless_name_spec (name : List Char) :
    parsed_tagless_name name
      = pyStripL (spec_collapse_ws_runs (removeTagTokens name)) := by
  unfold parsed_tagless_name trim_repeating_whitespace spec_collapse_ws_runs
  rw [trimWsGo_eq_spec]
